import Mathlib

/-!
# ROT18 (`src/rot18.c`): embedding and verification of `rot`

`rot` walks a NUL-terminated `char` buffer and rewrites every letter by ROT13
and every digit by ROT5, in place.

Modelling choices.

* A `char` value is an `Int` (the value after integer promotion).  The store
  `str[i] = str[i] + OFFSET_ROT13` converts the `int` result back to `char`;
  `toChar` is that conversion for a signed 8-bit `char`.
* The buffer `char str[]` is a `List Int`: all the bytes of the array, the
  terminator and whatever follows it included.  Reading `str[i]` beyond the
  end of the list is the C out-of-bounds read and is reported as
  `Outcome.outOfBounds`.
* The loop index `int i` is a 32-bit signed integer.  It starts at `0` and is
  only ever incremented, so its value is a `Nat` that stays in `0..INT_MAX`;
  the increment `i++` at `i = INT_MAX` is the signed overflow, which C leaves
  undefined, and is reported as `Outcome.intOverflow`.  A call therefore
  returns only when the terminator is at an index of at most `INT_MAX`.
* `isalpha`, `isupper`, `islower`, `isdigit` come from `<ctype.h>`, not from
  this repository.  They are a parameter `Ctype` of the embedding; `cLocale`
  is their meaning in the "C" locale, the locale in force in a program that
  never calls `setlocale`, as here.
* A *character sequence* handed to `rot` is a C string: the bytes of the buffer
  before the first NUL.  `NoNul s` says that `s` is such a content, and the
  buffer holding it is `s ++ 0 :: rest` for arbitrary trailing bytes `rest`.
-/

namespace Rot18

/-! ## Characters -/

/-- The integer value of an ASCII character constant such as `'A'`. -/
def chr (c : Char) : Int := (c.toNat : Int)

/-- The `#define OFFSET_ROT13 13` of the source. -/
def OFFSET_ROT13 : Int := 13

/-- The `#define OFFSET_ROT5 5` of the source. -/
def OFFSET_ROT5 : Int := 5

/-- Conversion of an `int` to a signed 8-bit `char`, as done by the assignment
`str[i] = ...`: reduction modulo `2^8` into `-128 .. 127`. -/
def toChar (x : Int) : Int := (x + 128) % 256 - 128

/-- The four `<ctype.h>` classification functions `rot` calls. -/
structure Ctype where
  isalpha : Int → Bool
  isupper : Int → Bool
  islower : Int → Bool
  isdigit : Int → Bool

/-- The classification functions of the "C" locale (ISO C 7.4.1): `isupper` is
true exactly on `'A'..'Z'`, `islower` exactly on `'a'..'z'`, `isalpha` exactly
where one of the two is, `isdigit` exactly on `'0'..'9'`.  A `char` value
outside `0..127` is classified as nothing at all. -/
def cLocale : Ctype where
  isalpha := fun c => decide ((chr 'A' ≤ c ∧ c ≤ chr 'Z') ∨ (chr 'a' ≤ c ∧ c ≤ chr 'z'))
  isupper := fun c => decide (chr 'A' ≤ c ∧ c ≤ chr 'Z')
  islower := fun c => decide (chr 'a' ≤ c ∧ c ≤ chr 'z')
  isdigit := fun c => decide (chr '0' ≤ c ∧ c ≤ chr '9')

/-- The `if` cascade of the loop body of `rot` (lines 8-28) for the character
`c = str[i]`: `some v` when one of the six assignments `str[i] = v` is
executed, `none` when no branch assigns. -/
def rotAssign (K : Ctype) (c : Int) : Option Int :=
  if K.isalpha c then
    if K.isupper c then
      if c ≥ chr 'A' ∧ c ≤ chr 'M' then
        some (toChar (c + OFFSET_ROT13))
      else if c ≥ chr 'N' ∧ c ≤ chr 'Z' then
        some (toChar (c - OFFSET_ROT13))
      else none
    else if K.islower c then
      if c ≥ chr 'a' ∧ c ≤ chr 'm' then
        some (toChar (c + OFFSET_ROT13))
      else if c ≥ chr 'n' ∧ c ≤ chr 'z' then
        some (toChar (c - OFFSET_ROT13))
      else none
    else none
  else if K.isdigit c then
    if c ≥ chr '0' ∧ c ≤ chr '4' then
      some (toChar (c + OFFSET_ROT5))
    else if c ≥ chr '5' ∧ c ≤ chr '9' then
      some (toChar (c - OFFSET_ROT5))
    else none
  else none

/-- The value `str[i]` holds after the loop body ran on the character `c`:
the assigned value when a branch assigned, `c` itself otherwise. -/
def rotChar (K : Ctype) (c : Int) : Int := (rotAssign K c).getD c

/-! ## The loop -/

/-- The constant `INT_MAX` of `<limits.h>` for the 32-bit `int` of the loop
index: `2^31 - 1`. -/
def INT_MAX : Nat := 2147483647

/-- The variables of `rot`: the buffer `str` and the loop index `i`, an `int`
that is never negative and that `body` keeps at or below `INT_MAX`. -/
structure State where
  str : List Int
  i : Nat
deriving DecidableEq

/-- The loop condition `str[i] != '\0'`; `none` when `i` is outside the
buffer, where the read is undefined in C. -/
def guard (st : State) : Option Bool :=
  match st.str[st.i]? with
  | none => none
  | some c => some (decide (c ≠ 0))

/-- The buffer after the `if` cascade of lines 8-28 ran at index `i`: the
assigned value is stored at `str[i]` when a branch assigns.  The loop runs it
only after the condition held at `i`, so the read of `str[i]` is in bounds. -/
def cascade (K : Ctype) (st : State) : List Int :=
  match rotAssign K (st.str.getD st.i 0) with
  | some v => st.str.set st.i v
  | none => st.str

/-- One iteration: the cascade on `str[i]`, then `i++`.  At `i = INT_MAX` the
increment overflows the `int`: the behaviour is undefined and there is no next
state (`none`). -/
def body (K : Ctype) (st : State) : Option State :=
  if st.i + 1 ≤ INT_MAX then some { str := cascade K st, i := st.i + 1 } else none

/-- The state after `k` iterations of the loop body, the guard not looked at;
`none` when one of the increments overflows. -/
def iter (K : Ctype) : Nat → State → Option State
  | 0, st => some st
  | k + 1, st => (body K st).bind (iter K k)

/-- How a call of `rot` ends. -/
inductive Outcome where
  /-- the loop condition became false; the final buffer and index -/
  | returned (st : State)
  /-- reading `str[i]` went past the end of the buffer (no terminator) -/
  | outOfBounds
  /-- the increment `i++` overflowed the `int` index (undefined behaviour) -/
  | intOverflow
  /-- the model ran out of fuel -/
  | outOfFuel
deriving DecidableEq

/-- The `for` loop of `rot`, run for at most `fuel` evaluations of its
condition. -/
def rotLoop (K : Ctype) : Nat → State → Outcome
  | 0, _ => .outOfFuel
  | fuel + 1, st =>
    match guard st with
    | none => .outOfBounds
    | some false => .returned st
    | some true =>
      match body K st with
      | none => .intOverflow
      | some st2 => rotLoop K fuel st2

/-- The function `void rot(char str[])`: the loop started at `i = 0`.  The
index grows by one per iteration and a read at `str.length` is already out of
bounds, so `str.length + 1` evaluations of the condition always suffice. -/
def rot (K : Ctype) (str : List Int) : Outcome :=
  rotLoop K (str.length + 1) { str := str, i := 0 }

/-! ## C strings -/

/-- The content of the C string held in a buffer: the bytes before the first
NUL (what `strcmp` and `strlen` look at). -/
def cstr (buf : List Int) : List Int := buf.takeWhile (fun c => decide (c ≠ 0))

/-- The `strlen` of a buffer: the number of bytes before the first NUL. -/
def strlen (buf : List Int) : Nat := (cstr buf).length

/-- The bytes of a string literal (ASCII), without the terminator. -/
def lit (s : String) : List Int := s.toList.map chr

/-- A list of characters is the content of a C string: no NUL among them. -/
def NoNul (s : List Int) : Prop := ∀ c ∈ s, c ≠ 0

instance (s : List Int) : Decidable (NoNul s) := by
  unfold NoNul; infer_instance

/-- The buffer after the call `rot(str)`, when the call returns. -/
def rotBuf (K : Ctype) (buf : List Int) : Option (List Int) :=
  match rot K buf with
  | .returned st => some st.str
  | _ => none

/-- The call `rot(str)` as the tests use it: the buffer holds the string `s`
and its terminator, `rot` runs on it, and the string is read back from the
buffer. -/
def rotStr (K : Ctype) (s : List Int) : Option (List Int) :=
  (rotBuf K (s ++ [0])).map cstr

/-- A string longer than an `int` can index: `INT_MAX + 1 = 2^31` times the
letter `'a'`. -/
def longString : List Int := List.replicate (INT_MAX + 1) (chr 'a')

/-! ## The cyclic-shift reference -/

/-- The reference definition of ROT13 and ROT5 in the words of the
specification's glossary: a letter is shifted 13 places through the 26-letter
alphabet of its case, a digit 5 places through the 10-digit cycle, every other
character is left alone.  It is not taken from the code; `rot` is compared
with it. -/
def cyclicShiftSpec (c : Int) : Int :=
  if chr 'A' ≤ c ∧ c ≤ chr 'Z' then chr 'A' + (c - chr 'A' + 13) % 26
  else if chr 'a' ≤ c ∧ c ≤ chr 'z' then chr 'a' + (c - chr 'a' + 13) % 26
  else if chr '0' ≤ c ∧ c ≤ chr '9' then chr '0' + (c - chr '0' + 5) % 10
  else c

/-! ## A second classification, and the arithmetic before the store -/

/-- A classification that agrees with the "C" locale on the 62 ASCII letters
and digits and answers yes to every question about every other value, bytes
above 127 and negative `char` values included. -/
def wideLocale : Ctype where
  isalpha := fun c => cLocale.isalpha c || !(cLocale.isalpha c || cLocale.isdigit c)
  isupper := fun c => cLocale.isupper c || !(cLocale.isalpha c || cLocale.isdigit c)
  islower := fun c => cLocale.islower c || !(cLocale.isalpha c || cLocale.isdigit c)
  isdigit := fun c => cLocale.isdigit c || !(cLocale.isalpha c || cLocale.isdigit c)

/-- The right-hand side of the assignment the cascade of `rot` executes on the
character `c`, as the `int` the addition or subtraction yields before it is
stored into the `char`; `none` when no branch assigns. -/
def rotExpr (K : Ctype) (c : Int) : Option Int :=
  if K.isalpha c then
    if K.isupper c then
      if c ≥ chr 'A' ∧ c ≤ chr 'M' then
        some (c + OFFSET_ROT13)
      else if c ≥ chr 'N' ∧ c ≤ chr 'Z' then
        some (c - OFFSET_ROT13)
      else none
    else if K.islower c then
      if c ≥ chr 'a' ∧ c ≤ chr 'm' then
        some (c + OFFSET_ROT13)
      else if c ≥ chr 'n' ∧ c ≤ chr 'z' then
        some (c - OFFSET_ROT13)
      else none
    else none
  else if K.isdigit c then
    if c ≥ chr '0' ∧ c ≤ chr '4' then
      some (c + OFFSET_ROT5)
    else if c ≥ chr '5' ∧ c ≤ chr '9' then
      some (c - OFFSET_ROT5)
    else none
  else none

/-! ## The per-character map in the "C" locale -/

theorem chr_vals : chr 'A' = 65 ∧ chr 'M' = 77 ∧ chr 'N' = 78 ∧ chr 'Z' = 90 ∧
    chr 'a' = 97 ∧ chr 'm' = 109 ∧ chr 'n' = 110 ∧ chr 'z' = 122 ∧
    chr '0' = 48 ∧ chr '4' = 52 ∧ chr '5' = 53 ∧ chr '9' = 57 := by decide

/-- In the "C" locale the cascade is decided by the six ranges alone. -/
theorem rotAssign_cLocale (c : Int) :
    rotAssign cLocale c =
      if 65 ≤ c ∧ c ≤ 77 then some (c + 13)
      else if 78 ≤ c ∧ c ≤ 90 then some (c - 13)
      else if 97 ≤ c ∧ c ≤ 109 then some (c + 13)
      else if 110 ≤ c ∧ c ≤ 122 then some (c - 13)
      else if 48 ≤ c ∧ c ≤ 52 then some (c + 5)
      else if 53 ≤ c ∧ c ≤ 57 then some (c - 5)
      else none := by
  obtain ⟨hA, hM, hN, hZ, ha, hm, hn, hz, h0, h4, h5, h9⟩ := chr_vals
  simp only [rotAssign, cLocale, hA, hM, hN, hZ, ha, hm, hn, hz, h0, h4, h5, h9,
    OFFSET_ROT13, OFFSET_ROT5, toChar, decide_eq_true_eq, ge_iff_le]
  split_ifs <;> first | rfl | (simp only [Option.some.injEq]; omega) | (exfalso; omega)

theorem rotChar_cLocale (c : Int) :
    rotChar cLocale c =
      if 65 ≤ c ∧ c ≤ 77 then c + 13
      else if 78 ≤ c ∧ c ≤ 90 then c - 13
      else if 97 ≤ c ∧ c ≤ 109 then c + 13
      else if 110 ≤ c ∧ c ≤ 122 then c - 13
      else if 48 ≤ c ∧ c ≤ 52 then c + 5
      else if 53 ≤ c ∧ c ≤ 57 then c - 5
      else c := by
  rw [rotChar, rotAssign_cLocale]
  split_ifs <;> rfl

theorem rotChar_rotChar (c : Int) : rotChar cLocale (rotChar cLocale c) = c := by
  have h := rotChar_cLocale c
  generalize rotChar cLocale c = d at h
  rw [rotChar_cLocale d]
  split_ifs at h <;> subst h <;> split_ifs <;> omega

theorem rotChar_ne_zero (c : Int) (hc : c ≠ 0) : rotChar cLocale c ≠ 0 := by
  rw [rotChar_cLocale]
  split_ifs <;> omega

/-! ## The loop on a buffer -/

theorem getElem?_mid (pre : List Int) (c : Int) (tail : List Int) :
    (pre ++ c :: tail)[pre.length]? = some c := by
  rw [List.getElem?_append_right (le_refl _)]
  simp

theorem guard_mid (pre : List Int) (c : Int) (tail : List Int) :
    guard ⟨pre ++ c :: tail, pre.length⟩ = some (decide (c ≠ 0)) := by
  simp only [guard, getElem?_mid]

theorem cascade_mid (K : Ctype) (pre : List Int) (c : Int) (tail : List Int) :
    cascade K ⟨pre ++ c :: tail, pre.length⟩ = pre ++ rotChar K c :: tail := by
  simp only [cascade, rotChar]
  have hget : (pre ++ c :: tail).getD pre.length 0 = c := by
    rw [List.getD_eq_getElem?_getD, getElem?_mid]; rfl
  rw [hget]
  cases rotAssign K c <;> simp

theorem body_mid (K : Ctype) (pre : List Int) (c : Int) (tail : List Int)
    (h : pre.length + 1 ≤ INT_MAX) :
    body K ⟨pre ++ c :: tail, pre.length⟩
      = some ⟨pre ++ rotChar K c :: tail, pre.length + 1⟩ := by
  simp only [body, if_pos h, cascade_mid]

/-- At `i = INT_MAX` and beyond there is no next state. -/
theorem body_eq_none (K : Ctype) (st : State) (h : INT_MAX ≤ st.i) : body K st = none := by
  simp only [body]
  rw [if_neg (by omega)]

/-- The loop on a buffer whose bytes from index `pre.length` on are a NUL-free
segment `p` followed by a NUL at an index of at most `INT_MAX`: it returns at
the NUL, with `p` mapped. -/
theorem rotLoop_map (K : Ctype) (p : List Int) : ∀ (pre rest : List Int) (fuel : Nat),
    NoNul p → pre.length + p.length ≤ INT_MAX → p.length < fuel →
    rotLoop K fuel ⟨pre ++ (p ++ 0 :: rest), pre.length⟩ =
      .returned ⟨pre ++ (p.map (rotChar K) ++ 0 :: rest), pre.length + p.length⟩ := by
  induction p with
  | nil =>
    intro pre rest fuel _ _ hf
    obtain ⟨f, rfl⟩ : ∃ f, fuel = f + 1 := ⟨fuel - 1, by simp at hf; omega⟩
    simp [rotLoop, guard_mid]
  | cons c p ih =>
    intro pre rest fuel hp hl hf
    rw [List.length_cons] at hl
    obtain ⟨f, rfl⟩ : ∃ f, fuel = f + 1 := ⟨fuel - 1, by simp at hf; omega⟩
    have hc : c ≠ 0 := hp c (by simp)
    have hp2 : NoNul p := fun d hd => hp d (by simp [hd])
    have h := ih (pre ++ [rotChar K c]) rest f hp2 (by simp; omega) (by simp at hf; omega)
    simp only [List.length_append, List.length_singleton, List.append_assoc,
      List.singleton_append] at h
    simp only [rotLoop, List.cons_append, guard_mid, hc, ne_eq, not_false_eq_true,
      decide_True, body_mid K pre c _ (by omega), List.map_cons, List.length_cons]
    rw [h]
    congr 2
    omega

/-- The loop on a buffer whose bytes from index `pre.length` on are a NUL-free
segment `p` that reaches beyond index `INT_MAX`: the increment overflows. -/
theorem rotLoop_overflow (K : Ctype) (p : List Int) : ∀ (pre tail : List Int) (fuel : Nat),
    NoNul p → pre.length ≤ INT_MAX → INT_MAX < pre.length + p.length → p.length ≤ fuel →
    rotLoop K fuel ⟨pre ++ (p ++ tail), pre.length⟩ = .intOverflow := by
  induction p with
  | nil =>
    intro pre tail fuel _ h1 h2 _
    simp at h2
    omega
  | cons c p ih =>
    intro pre tail fuel hp h1 h2 hf
    rw [List.length_cons] at h2 hf
    obtain ⟨f, rfl⟩ : ∃ f, fuel = f + 1 := ⟨fuel - 1, by omega⟩
    have hc : c ≠ 0 := hp c (by simp)
    have hp2 : NoNul p := fun d hd => hp d (by simp [hd])
    by_cases hi : pre.length + 1 ≤ INT_MAX
    · have h := ih (pre ++ [rotChar K c]) tail f hp2 (by simp; omega) (by simp; omega)
        (by omega)
      simp only [List.length_append, List.length_singleton, List.append_assoc,
        List.singleton_append] at h
      simp only [rotLoop, List.cons_append, guard_mid, hc, ne_eq, not_false_eq_true,
        decide_True, body_mid K pre c _ hi]
      exact h
    · have hb : body K ⟨pre ++ (c :: p ++ tail), pre.length⟩ = none :=
        body_eq_none K _ (by simp only; omega)
      simp only [rotLoop, List.cons_append, guard_mid, hc, ne_eq, not_false_eq_true,
        decide_True]
      rw [List.cons_append] at hb
      rw [hb]

/-- What `rot` does on a buffer holding the string `s` of at most `INT_MAX`
characters, its terminator and any trailing bytes: it returns with `s` mapped
character by character and with the index on the terminator. -/
theorem rot_spec (K : Ctype) (s rest : List Int) (hs : NoNul s) (hl : s.length ≤ INT_MAX) :
    rot K (s ++ 0 :: rest) = .returned ⟨s.map (rotChar K) ++ 0 :: rest, s.length⟩ := by
  have h := rotLoop_map K s [] rest ((s ++ 0 :: rest).length + 1) hs (by simpa using hl)
    (by simp; omega)
  simpa [rot] using h

/-- What `rot` does on a buffer holding a string of more than `INT_MAX`
characters: the index overflows before the terminator is reached. -/
theorem rot_overflow (K : Ctype) (s rest : List Int) (hs : NoNul s) (hl : INT_MAX < s.length) :
    rot K (s ++ 0 :: rest) = .intOverflow := by
  have h := rotLoop_overflow K s [] (0 :: rest) ((s ++ 0 :: rest).length + 1) hs
    (Nat.zero_le _) (by simpa using hl) (by simp; omega)
  simpa [rot] using h

/-- Every buffer that contains a NUL splits at its first NUL. -/
theorem split_at_nul (s rest : List Int) :
    ∃ p rest2, NoNul p ∧ p.length ≤ s.length ∧ s ++ 0 :: rest = p ++ 0 :: rest2 := by
  induction s with
  | nil => exact ⟨[], rest, by simp [NoNul], by simp, rfl⟩
  | cons c s ih =>
    by_cases hc : c = 0
    · subst hc
      exact ⟨[], s ++ 0 :: rest, by simp [NoNul], by simp, rfl⟩
    · obtain ⟨p, rest2, hp, hl, he⟩ := ih
      refine ⟨c :: p, rest2, ?_, by simpa using hl, by simp [he]⟩
      intro d hd
      rcases List.mem_cons.mp hd with rfl | hd
      · exact hc
      · exact hp d hd

theorem cstr_append_nul (s rest : List Int) (hs : NoNul s) : cstr (s ++ 0 :: rest) = s := by
  induction s with
  | nil => simp [cstr]
  | cons c s ih =>
    have hc : c ≠ 0 := hs c (by simp)
    have hs2 : NoNul s := fun d hd => hs d (by simp [hd])
    have := ih hs2
    simp only [cstr] at this ⊢
    rw [List.cons_append, List.takeWhile_cons, if_pos (by simpa using hc), this]

theorem strlen_append_nul (s rest : List Int) (hs : NoNul s) :
    strlen (s ++ 0 :: rest) = s.length := by
  rw [strlen, cstr_append_nul s rest hs]

theorem noNul_map_rotChar (s : List Int) (hs : NoNul s) : NoNul (s.map (rotChar cLocale)) := by
  intro d hd
  obtain ⟨c, hc, rfl⟩ := List.mem_map.mp hd
  exact rotChar_ne_zero c (hs c hc)

theorem map_rotChar_rotChar (s : List Int) :
    (s.map (rotChar cLocale)).map (rotChar cLocale) = s := by
  induction s with
  | nil => rfl
  | cons c s ih => simp [rotChar_rotChar, ih]

theorem rotBuf_spec (K : Ctype) (s rest : List Int) (hs : NoNul s) (hl : s.length ≤ INT_MAX) :
    rotBuf K (s ++ 0 :: rest) = some (s.map (rotChar K) ++ 0 :: rest) := by
  simp [rotBuf, rot_spec K s rest hs hl]

theorem rotBuf_overflow (K : Ctype) (s rest : List Int) (hs : NoNul s)
    (hl : INT_MAX < s.length) : rotBuf K (s ++ 0 :: rest) = none := by
  simp only [rotBuf, rot_overflow K s rest hs hl]

theorem rotStr_spec (s : List Int) (hs : NoNul s) (hl : s.length ≤ INT_MAX) :
    rotStr cLocale s = some (s.map (rotChar cLocale)) := by
  simp [rotStr, rotBuf_spec cLocale s [] hs hl, cstr_append_nul _ _ (noNul_map_rotChar s hs)]

/-- Reading the buffer after the segment `p` was mapped: positions inside `p`
hold the image, positions behind it hold what they held. -/
theorem getElem?_map_append (f : Int → Int) (p tl : List Int) (i : Nat) (c : Int)
    (h : (p ++ tl)[i]? = some c) :
    (p.map f ++ tl)[i]? = some (if i < p.length then f c else c) := by
  by_cases hi : i < p.length
  · rw [List.getElem?_append_left hi] at h
    rw [List.getElem?_append_left (by simpa using hi), List.getElem?_map, h, if_pos hi]
    rfl
  · have hle : p.length ≤ i := Nat.le_of_not_lt hi
    rw [List.getElem?_append_right hle] at h
    rw [List.getElem?_append_right (by simpa using hle), if_neg hi]
    simpa using h

theorem body_i (K : Ctype) (st st2 : State) (h : body K st = some st2) : st2.i = st.i + 1 := by
  simp only [body] at h
  split_ifs at h
  simp only [Option.some.injEq] at h
  rw [← h]

theorem iter_i (K : Ctype) : ∀ (k : Nat) (st st2 : State),
    iter K k st = some st2 → st2.i = st.i + k := by
  intro k
  induction k with
  | zero =>
    intro st st2 h
    simp only [iter, Option.some.injEq] at h
    rw [← h]; rfl
  | succ k ih =>
    intro st st2 h
    rw [iter] at h
    cases hb : body K st with
    | none => rw [hb] at h; exact Option.noConfusion h
    | some st1 =>
      rw [hb, Option.some_bind] at h
      rw [ih st1 st2 h, body_i K st st1 hb]
      omega

theorem noNul_lit_examples :
    NoNul (lit "Have a nice day!") ∧ NoNul (lit "Unir n avpr qnl!") ∧ NoNul (lit "0816") ∧
    NoNul (lit "XYZ xyz") ∧ NoNul (lit "") := by decide

/-! ## The string that is too long -/

theorem longString_length : longString.length = INT_MAX + 1 := by
  rw [longString, List.length_replicate]

theorem longString_noNul : NoNul longString := by
  intro c hc
  rw [longString] at hc
  rw [List.eq_of_mem_replicate hc]
  decide

theorem rot_longString (K : Ctype) (rest : List Int) :
    rot K (longString ++ 0 :: rest) = .intOverflow :=
  rot_overflow K longString rest longString_noNul (by rw [longString_length]; omega)

theorem rotBuf_longString (K : Ctype) (rest : List Int) :
    rotBuf K (longString ++ 0 :: rest) = none :=
  rotBuf_overflow K longString rest longString_noNul (by rw [longString_length]; omega)

/-! ## The claims -/

/-- C1 (amended). Involution: on every buffer that holds a terminated string
(any bytes `s`, a NUL, any trailing bytes `rest`) whose first NUL is at an
index of at most `INT_MAX`, `rot` returns, a second call of `rot` on the
result returns too, and the buffer is then byte for byte the original one.
The same function encodes and decodes. -/
theorem rot_involution (s rest : List Int) (hl : strlen (s ++ 0 :: rest) ≤ INT_MAX) :
    (rotBuf cLocale (s ++ 0 :: rest)).bind (rotBuf cLocale) = some (s ++ 0 :: rest) := by
  obtain ⟨p, rest2, hp, -, he⟩ := split_at_nul s rest
  rw [he, strlen_append_nul p rest2 hp] at hl
  rw [he, rotBuf_spec cLocale p rest2 hp hl, Option.some_bind,
    rotBuf_spec cLocale _ rest2 (noNul_map_rotChar p hp) (by simpa using hl),
    map_rotChar_rotChar]

/-- Witness of C1: the buffer `"Hi 5\0a\0"`. -/
theorem rot_involution_witness :
    strlen (lit "Hi 5" ++ 0 :: [chr 'a', 0]) ≤ INT_MAX ∧
    (rotBuf cLocale (lit "Hi 5" ++ 0 :: [chr 'a', 0])).bind (rotBuf cLocale)
      = some (lit "Hi 5" ++ 0 :: [chr 'a', 0]) :=
  ⟨by decide, rot_involution (lit "Hi 5") [chr 'a', 0] (by decide)⟩

/-- Counterexample to C1 as stated (every character sequence): on the string
of `INT_MAX + 1` letters `'a'` the index overflows, the call does not return,
and two calls do not give the string back. -/
theorem rot_involution_counterexample :
    NoNul longString ∧ longString.length = INT_MAX + 1 ∧
    rot cLocale (longString ++ [0]) = .intOverflow ∧
    (rotBuf cLocale (longString ++ [0])).bind (rotBuf cLocale) ≠ some (longString ++ [0]) := by
  refine ⟨longString_noNul, longString_length, rot_longString cLocale [], ?_⟩
  rw [rotBuf_longString cLocale []]
  exact fun h => Option.noConfusion h

/-- C2 (amended). Mapping table: when the buffer holds the string `s`, free of
NUL bytes and of at most `INT_MAX` characters (then its terminator, then any
bytes), and `c` is the character of `s` at index `i`, the call returns and the
character at index `i` of the buffer, and of the string read back from it, is
`c + 13` for `c` in `'A'..'M'` or `'a'..'m'`, `c - 13` for `c` in `'N'..'Z'`
or `'n'..'z'`, `c + 5` for `c` in `'0'..'4'`, `c - 5` for `c` in `'5'..'9'`,
and `c` itself in every other case. -/
theorem rot_mapping_table (s rest : List Int) (hs : NoNul s) (hl : s.length ≤ INT_MAX)
    (i : Nat) (c : Int) (hc : s[i]? = some c) :
    ∃ out r, rotBuf cLocale (s ++ 0 :: rest) = some out ∧ out[i]? = some r ∧
      (cstr out)[i]? = some r ∧
      ((chr 'A' ≤ c ∧ c ≤ chr 'M') ∨ (chr 'a' ≤ c ∧ c ≤ chr 'm') → r = c + 13) ∧
      ((chr 'N' ≤ c ∧ c ≤ chr 'Z') ∨ (chr 'n' ≤ c ∧ c ≤ chr 'z') → r = c - 13) ∧
      (chr '0' ≤ c ∧ c ≤ chr '4' → r = c + 5) ∧
      (chr '5' ≤ c ∧ c ≤ chr '9' → r = c - 5) ∧
      (¬ ((chr 'A' ≤ c ∧ c ≤ chr 'M') ∨ (chr 'a' ≤ c ∧ c ≤ chr 'm') ∨
          (chr 'N' ≤ c ∧ c ≤ chr 'Z') ∨ (chr 'n' ≤ c ∧ c ≤ chr 'z') ∨
          (chr '0' ≤ c ∧ c ≤ chr '4') ∨ (chr '5' ≤ c ∧ c ≤ chr '9')) → r = c) := by
  have hi : i < s.length := by
    by_contra hn
    rw [List.getElem?_eq_none (Nat.le_of_not_lt hn)] at hc
    exact Option.noConfusion hc
  have hbuf : (s ++ 0 :: rest)[i]? = some c := by
    rw [List.getElem?_append_left hi]; exact hc
  have hout := getElem?_map_append (rotChar cLocale) s (0 :: rest) i c hbuf
  rw [if_pos hi] at hout
  have hstr : (s.map (rotChar cLocale))[i]? = some (rotChar cLocale c) := by
    rw [List.getElem?_map, hc]; rfl
  refine ⟨_, rotChar cLocale c, rotBuf_spec cLocale s rest hs hl, hout, ?_, ?_⟩
  · rw [cstr_append_nul _ _ (noNul_map_rotChar s hs)]; exact hstr
  · obtain ⟨hA, hM, hN, hZ, ha, hm, hn, hz, h0, h4, h5, h9⟩ := chr_vals
    rw [hA, hM, hN, hZ, ha, hm, hn, hz, h0, h4, h5, h9, rotChar_cLocale]
    split_ifs <;> omega

/-- Witness of C2: the string `"a5!"` at index `0`, where `'a'` becomes `'n'`. -/
theorem rot_mapping_table_witness :
    NoNul (lit "a5!") ∧ (lit "a5!").length ≤ INT_MAX ∧ (lit "a5!")[0]? = some (chr 'a') ∧
    ∃ out r, rotBuf cLocale (lit "a5!" ++ 0 :: []) = some out ∧ out[0]? = some r ∧
      (cstr out)[0]? = some r ∧
      ((chr 'A' ≤ chr 'a' ∧ chr 'a' ≤ chr 'M') ∨ (chr 'a' ≤ chr 'a' ∧ chr 'a' ≤ chr 'm') →
        r = chr 'a' + 13) ∧
      ((chr 'N' ≤ chr 'a' ∧ chr 'a' ≤ chr 'Z') ∨ (chr 'n' ≤ chr 'a' ∧ chr 'a' ≤ chr 'z') →
        r = chr 'a' - 13) ∧
      (chr '0' ≤ chr 'a' ∧ chr 'a' ≤ chr '4' → r = chr 'a' + 5) ∧
      (chr '5' ≤ chr 'a' ∧ chr 'a' ≤ chr '9' → r = chr 'a' - 5) ∧
      (¬ ((chr 'A' ≤ chr 'a' ∧ chr 'a' ≤ chr 'M') ∨ (chr 'a' ≤ chr 'a' ∧ chr 'a' ≤ chr 'm') ∨
          (chr 'N' ≤ chr 'a' ∧ chr 'a' ≤ chr 'Z') ∨ (chr 'n' ≤ chr 'a' ∧ chr 'a' ≤ chr 'z') ∨
          (chr '0' ≤ chr 'a' ∧ chr 'a' ≤ chr '4') ∨ (chr '5' ≤ chr 'a' ∧ chr 'a' ≤ chr '9')) →
        r = chr 'a') :=
  ⟨by decide, by decide, by decide,
    rot_mapping_table (lit "a5!") [] (by decide) (by decide) 0 (chr 'a') (by decide)⟩

/-- Counterexample to C2 as stated (every finite sequence of single-byte
characters, every index): in the sequence `'a'`, NUL, `'b'` the character at
index `2` is `'b'`, in `'a'..'m'`, and after the call index `2` still holds
`'b'`, not `'b' + 13`; and on the string of `INT_MAX + 1` letters `'a'` the
call does not return. -/
theorem rot_mapping_table_counterexample :
    ([chr 'a', 0, chr 'b'] : List Int)[2]? = some (chr 'b') ∧
    (chr 'a' ≤ chr 'b' ∧ chr 'b' ≤ chr 'm') ∧
    rotBuf cLocale ([chr 'a', 0, chr 'b'] ++ [0]) = some ([chr 'n', 0, chr 'b'] ++ [0]) ∧
    ([chr 'n', 0, chr 'b'] ++ [0] : List Int)[2]? = some (chr 'b') ∧
    chr 'b' ≠ chr 'b' + 13 ∧
    rotBuf cLocale (longString ++ [0]) = none :=
  ⟨by decide, by decide, by decide, by decide, by decide, rotBuf_longString cLocale []⟩

/-- C3 (amended). Length preservation: when the buffer holds the string `s` of
at most `INT_MAX` characters, its terminator and any trailing bytes, the call
returns a buffer of the same size whose string has the length of `s`: `strlen`
is `s.length` before and after the call, the terminator is still where it was,
and no branch of the cascade ever assigns a NUL byte (on a NUL character no
branch assigns at all). -/
theorem rot_length_preserved (s rest : List Int) (hs : NoNul s) (hl : s.length ≤ INT_MAX) :
    ∃ out, rotBuf cLocale (s ++ 0 :: rest) = some out ∧
      out.length = (s ++ 0 :: rest).length ∧
      strlen (s ++ 0 :: rest) = s.length ∧ strlen out = s.length ∧
      out[s.length]? = some 0 ∧
      (∀ c, rotAssign cLocale c ≠ some 0) ∧ rotAssign cLocale 0 = none ∧
      ∃ r, rotStr cLocale s = some r ∧ r.length = s.length := by
  refine ⟨_, rotBuf_spec cLocale s rest hs hl, by simp, ?_, ?_, ?_, ?_, ?_, ?_⟩
  · rw [strlen, cstr_append_nul s rest hs]
  · rw [strlen, cstr_append_nul _ rest (noNul_map_rotChar s hs), List.length_map]
  · have h := getElem?_mid (s.map (rotChar cLocale)) 0 rest
    rwa [List.length_map] at h
  · intro c
    rw [rotAssign_cLocale]
    split_ifs <;> simp <;> omega
  · decide
  · exact ⟨_, rotStr_spec s hs hl, by simp⟩

/-- Witness of C3: the string `"Hi 5"` followed by its terminator and two
more bytes. -/
theorem rot_length_preserved_witness :
    NoNul (lit "Hi 5") ∧ (lit "Hi 5").length ≤ INT_MAX ∧
    ∃ out, rotBuf cLocale (lit "Hi 5" ++ 0 :: [chr 'x', 0]) = some out ∧
      out.length = (lit "Hi 5" ++ 0 :: [chr 'x', 0]).length ∧
      strlen (lit "Hi 5" ++ 0 :: [chr 'x', 0]) = (lit "Hi 5").length ∧
      strlen out = (lit "Hi 5").length ∧
      out[(lit "Hi 5").length]? = some 0 ∧
      (∀ c, rotAssign cLocale c ≠ some 0) ∧ rotAssign cLocale 0 = none ∧
      ∃ r, rotStr cLocale (lit "Hi 5") = some r ∧ r.length = (lit "Hi 5").length :=
  ⟨by decide, by decide, rot_length_preserved (lit "Hi 5") [chr 'x', 0] (by decide) (by decide)⟩

/-- Counterexample to C3 as stated (every character sequence): on the string
of `INT_MAX + 1` letters `'a'` the index overflows and the call leaves no
result whose length could be compared. -/
theorem rot_length_preserved_counterexample :
    NoNul longString ∧ longString.length = INT_MAX + 1 ∧
    rotBuf cLocale (longString ++ [0]) = none ∧ rotStr cLocale longString = none := by
  refine ⟨longString_noNul, longString_length, rotBuf_longString cLocale [], ?_⟩
  rw [rotStr, rotBuf_longString cLocale []]
  rfl

/-- C4 (amended). Non-alphanumeric passthrough: on every buffer that holds a
terminated string whose first NUL is at an index of at most `INT_MAX`, a
position `i` whose character `c` is neither an ASCII letter (`'A'..'Z'`,
`'a'..'z'`) nor an ASCII digit (`'0'..'9'`) holds `c` again after the call. -/
theorem rot_passthrough (s rest : List Int) (hl : strlen (s ++ 0 :: rest) ≤ INT_MAX)
    (i : Nat) (c : Int) (hc : (s ++ 0 :: rest)[i]? = some c)
    (hna : ¬ ((chr 'A' ≤ c ∧ c ≤ chr 'Z') ∨ (chr 'a' ≤ c ∧ c ≤ chr 'z') ∨
              (chr '0' ≤ c ∧ c ≤ chr '9'))) :
    ∃ out, rotBuf cLocale (s ++ 0 :: rest) = some out ∧ out[i]? = some c := by
  obtain ⟨p, rest2, hp, -, he⟩ := split_at_nul s rest
  rw [he] at hc ⊢
  rw [he, strlen_append_nul p rest2 hp] at hl
  refine ⟨_, rotBuf_spec cLocale p rest2 hp hl, ?_⟩
  rw [getElem?_map_append (rotChar cLocale) p (0 :: rest2) i c hc]
  obtain ⟨hA, -, -, hZ, ha, -, -, hz, h0, -, -, h9⟩ := chr_vals
  rw [hA, hZ, ha, hz, h0, h9] at hna
  have hfix : rotChar cLocale c = c := by
    rw [rotChar_cLocale]
    split_ifs <;> omega
  rw [hfix, ite_self]

/-- Witness of C4: the blank at index `2` of `"Hi 5"`. -/
theorem rot_passthrough_witness :
    strlen (lit "Hi 5" ++ 0 :: []) ≤ INT_MAX ∧
    (lit "Hi 5" ++ 0 :: [])[2]? = some (chr ' ') ∧
    ¬ ((chr 'A' ≤ chr ' ' ∧ chr ' ' ≤ chr 'Z') ∨ (chr 'a' ≤ chr ' ' ∧ chr ' ' ≤ chr 'z') ∨
       (chr '0' ≤ chr ' ' ∧ chr ' ' ≤ chr '9')) ∧
    ∃ out, rotBuf cLocale (lit "Hi 5" ++ 0 :: []) = some out ∧ out[2]? = some (chr ' ') :=
  ⟨by decide, by decide, by decide,
    rot_passthrough (lit "Hi 5") [] (by decide) 2 (chr ' ') (by decide) (by decide)⟩

/-- Counterexample to C4 as stated (every sequence): in the string made of
`'!'` and then `INT_MAX + 1` letters `'a'`, position `0` holds a character
that is neither letter nor digit, but the index overflows and the call leaves
no buffer in which position `0` could be read. -/
theorem rot_passthrough_counterexample :
    ((chr '!' :: longString) ++ [0])[0]? = some (chr '!') ∧
    ¬ ((chr 'A' ≤ chr '!' ∧ chr '!' ≤ chr 'Z') ∨ (chr 'a' ≤ chr '!' ∧ chr '!' ≤ chr 'z') ∨
       (chr '0' ≤ chr '!' ∧ chr '!' ≤ chr '9')) ∧
    rotBuf cLocale ((chr '!' :: longString) ++ [0]) = none := by
  refine ⟨by rw [List.cons_append, List.getElem?_cons_zero], by decide, ?_⟩
  apply rotBuf_overflow cLocale (chr '!' :: longString) []
  · intro c hc
    rcases List.mem_cons.mp hc with rfl | h
    · decide
    · exact longString_noNul c h
  · rw [List.length_cons, longString_length]; omega

/-- C5. Boundary mapping exactness: on the twelve one-character strings made
of a range boundary, `rot` gives `'A'->'N'`, `'M'->'Z'`, `'N'->'A'`,
`'Z'->'M'`, `'a'->'n'`, `'m'->'z'`, `'n'->'a'`, `'z'->'m'`, `'0'->'5'`,
`'4'->'9'`, `'5'->'0'`, `'9'->'4'`. -/
theorem rot_boundaries :
    rotStr cLocale [chr 'A'] = some [chr 'N'] ∧ rotStr cLocale [chr 'M'] = some [chr 'Z'] ∧
    rotStr cLocale [chr 'N'] = some [chr 'A'] ∧ rotStr cLocale [chr 'Z'] = some [chr 'M'] ∧
    rotStr cLocale [chr 'a'] = some [chr 'n'] ∧ rotStr cLocale [chr 'm'] = some [chr 'z'] ∧
    rotStr cLocale [chr 'n'] = some [chr 'a'] ∧ rotStr cLocale [chr 'z'] = some [chr 'm'] ∧
    rotStr cLocale [chr '0'] = some [chr '5'] ∧ rotStr cLocale [chr '4'] = some [chr '9'] ∧
    rotStr cLocale [chr '5'] = some [chr '0'] ∧ rotStr cLocale [chr '9'] = some [chr '4'] := by
  decide

/-- C6. First scenario of `your_tests`: whatever follows the terminator in the
buffer, `rot` turns `"Have a nice day!"` into `"Unir n avpr qnl!"` and
`"Unir n avpr qnl!"` back into `"Have a nice day!"`. -/
theorem rot_have_a_nice_day (rest : List Int) :
    rotBuf cLocale (lit "Have a nice day!" ++ 0 :: rest)
      = some (lit "Unir n avpr qnl!" ++ 0 :: rest) ∧
    rotBuf cLocale (lit "Unir n avpr qnl!" ++ 0 :: rest)
      = some (lit "Have a nice day!" ++ 0 :: rest) ∧
    rotStr cLocale (lit "Have a nice day!") = some (lit "Unir n avpr qnl!") ∧
    rotStr cLocale (lit "Unir n avpr qnl!") = some (lit "Have a nice day!") := by
  refine ⟨?_, ?_, by decide, by decide⟩
  · rw [rotBuf_spec cLocale _ rest (by decide) (by decide)]
    exact congrArg (fun l => some (l ++ 0 :: rest)) (by decide)
  · rw [rotBuf_spec cLocale _ rest (by decide) (by decide)]
    exact congrArg (fun l => some (l ++ 0 :: rest)) (by decide)

/-- C7. Second scenario of `your_tests`: whatever follows the terminator in
the buffer, `rot` turns `"0816"` into `"5361"`. -/
theorem rot_0816 (rest : List Int) :
    rotBuf cLocale (lit "0816" ++ 0 :: rest) = some (lit "5361" ++ 0 :: rest) ∧
    rotStr cLocale (lit "0816") = some (lit "5361") := by
  refine ⟨?_, by decide⟩
  rw [rotBuf_spec cLocale _ rest (by decide) (by decide)]
  exact congrArg (fun l => some (l ++ 0 :: rest)) (by decide)

/-- C8. Empty input and upper-half wrap-around: whatever follows the
terminator in the buffer, `rot` leaves the empty string empty and turns
`"XYZ xyz"` into `"KLM klm"`. -/
theorem rot_empty_and_xyz (rest : List Int) :
    rotBuf cLocale (lit "" ++ 0 :: rest) = some (lit "" ++ 0 :: rest) ∧
    rotStr cLocale (lit "") = some (lit "") ∧
    rotBuf cLocale (lit "XYZ xyz" ++ 0 :: rest) = some (lit "KLM klm" ++ 0 :: rest) ∧
    rotStr cLocale (lit "XYZ xyz") = some (lit "KLM klm") := by
  refine ⟨?_, by decide, ?_, by decide⟩
  · rw [rotBuf_spec cLocale _ rest (by decide) (by decide)]
    exact congrArg (fun l => some (l ++ 0 :: rest)) (by decide)
  · rw [rotBuf_spec cLocale _ rest (by decide) (by decide)]
    exact congrArg (fun l => some (l ++ 0 :: rest)) (by decide)

theorem cstr_append_left (s u : List Int) (hs : NoNul s) : cstr (s ++ u) = s ++ cstr u := by
  induction s with
  | nil => rfl
  | cons c s ih =>
    have hc : c ≠ 0 := hs c (by simp)
    have hs2 : NoNul s := fun d hd => hs d (by simp [hd])
    have := ih hs2
    simp only [cstr] at this ⊢
    rw [List.cons_append, List.takeWhile_cons, if_pos (by simpa using hc), this,
      List.cons_append]

/-- The string read back after `rot` ran on any list of bytes followed by a
terminator: the image of the bytes before the first NUL. -/
theorem rotStr_cstr (u : List Int) (hl : strlen (u ++ [0]) ≤ INT_MAX) :
    rotStr cLocale u = some ((cstr (u ++ [0])).map (rotChar cLocale)) := by
  obtain ⟨p, rest2, hp, -, he⟩ := split_at_nul u []
  rw [he, strlen_append_nul p rest2 hp] at hl
  rw [rotStr, he, rotBuf_spec cLocale p rest2 hp hl, cstr_append_nul p rest2 hp]
  simp [cstr_append_nul _ _ (noNul_map_rotChar p hp)]

/-- C10 (amended). Independence of neighbours: for a string `s` free of NUL
bytes and any bytes `t`, when `s ++ t` has at most `INT_MAX` characters before
its first NUL, the string read back after `rot` is the character-by-character
image under one fixed map of characters, so the result on `s ++ t` is the
result on `s` followed by the result on `t`. -/
theorem rot_append (s t : List Int) (hs : NoNul s)
    (hl : strlen (s ++ t ++ [0]) ≤ INT_MAX) :
    ∃ rs rt, rotStr cLocale s = some rs ∧ rotStr cLocale t = some rt ∧
      rotStr cLocale (s ++ t) = some (rs ++ rt) ∧
      rs = s.map (rotChar cLocale) ∧ rt = (cstr (t ++ [0])).map (rotChar cLocale) := by
  have hsplit : cstr (s ++ t ++ [0]) = s ++ cstr (t ++ [0]) := by
    rw [List.append_assoc, cstr_append_left s _ hs]
  have hlen : s.length + strlen (t ++ [0]) ≤ INT_MAX := by
    rw [strlen, hsplit, List.length_append] at hl
    exact hl
  refine ⟨_, _, rotStr_spec s hs (by omega), rotStr_cstr t (by omega), ?_, rfl, rfl⟩
  rw [rotStr_cstr (s ++ t) hl, hsplit, List.map_append]

/-- Witness of C10: the strings `"Hi "` and `"5!"`. -/
theorem rot_append_witness :
    NoNul (lit "Hi ") ∧ strlen (lit "Hi " ++ lit "5!" ++ [0]) ≤ INT_MAX ∧
    ∃ rs rt, rotStr cLocale (lit "Hi ") = some rs ∧ rotStr cLocale (lit "5!") = some rt ∧
      rotStr cLocale (lit "Hi " ++ lit "5!") = some (rs ++ rt) ∧
      rs = (lit "Hi ").map (rotChar cLocale) ∧
      rt = (cstr (lit "5!" ++ [0])).map (rotChar cLocale) :=
  ⟨by decide, by decide, rot_append (lit "Hi ") (lit "5!") (by decide) (by decide)⟩

/-- Counterexample to C10 as stated (all sequences `s` and `t`): with `s` the
single NUL byte and `t` the letter `'a'`, the result on `s ++ t` is the empty
string, while the results on `s` and on `t` are the empty string and `"n"`;
and on the string of `INT_MAX + 1` letters `'a'` followed by nothing the call
does not return. -/
theorem rot_append_counterexample :
    rotStr cLocale ([0] ++ [chr 'a']) = some [] ∧
    rotStr cLocale [0] = some [] ∧ rotStr cLocale [chr 'a'] = some [chr 'n'] ∧
    ([] : List Int) ≠ [] ++ [chr 'n'] ∧
    rotStr cLocale (longString ++ []) = none := by
  refine ⟨by decide, by decide, by decide, by decide, ?_⟩
  rw [List.append_nil, rotStr, rotBuf_longString cLocale []]
  rfl

theorem rotChar_eq_cyclicShiftSpec (c : Int) : rotChar cLocale c = cyclicShiftSpec c := by
  obtain ⟨hA, -, -, hZ, ha, -, -, hz, h0, -, -, h9⟩ := chr_vals
  rw [rotChar_cLocale, cyclicShiftSpec, hA, hZ, ha, hz, h0, h9]
  split_ifs <;> omega

/-- C11. Agreement with the modular reference: on a buffer holding the string
`s` of at most `INT_MAX` characters, `rot` leaves the character-by-character image of `s` under the cyclic
shift; the per-character map of `rot` is the cyclic shift on every character,
so it sends an uppercase letter `c` to `'A' + ((c - 'A' + 13) mod 26)`, a
lowercase letter to `'a' + ((c - 'a' + 13) mod 26)` and a digit to
`'0' + ((c - '0' + 5) mod 10)`. -/
theorem rot_refines_cyclic_shift (s rest : List Int) (hs : NoNul s)
    (hl : s.length ≤ INT_MAX) :
    rotBuf cLocale (s ++ 0 :: rest) = some (s.map cyclicShiftSpec ++ 0 :: rest) ∧
    rotStr cLocale s = some (s.map cyclicShiftSpec) ∧
    (∀ c, rotChar cLocale c = cyclicShiftSpec c) ∧
    (∀ c, chr 'A' ≤ c ∧ c ≤ chr 'Z' →
      rotAssign cLocale c = some (chr 'A' + (c - chr 'A' + 13) % 26)) ∧
    (∀ c, chr 'a' ≤ c ∧ c ≤ chr 'z' →
      rotAssign cLocale c = some (chr 'a' + (c - chr 'a' + 13) % 26)) ∧
    (∀ c, chr '0' ≤ c ∧ c ≤ chr '9' →
      rotAssign cLocale c = some (chr '0' + (c - chr '0' + 5) % 10)) := by
  have hmap : s.map (rotChar cLocale) = s.map cyclicShiftSpec :=
    List.map_congr_left (fun c _ => rotChar_eq_cyclicShiftSpec c)
  obtain ⟨hA, -, -, hZ, ha, -, -, hz, h0, -, -, h9⟩ := chr_vals
  refine ⟨?_, ?_, rotChar_eq_cyclicShiftSpec, ?_, ?_, ?_⟩
  · rw [rotBuf_spec cLocale s rest hs hl, hmap]
  · rw [rotStr_spec s hs hl, hmap]
  · intro c hc
    rw [hA, hZ] at hc
    rw [rotAssign_cLocale, hA]
    split_ifs <;> first | (simp only [Option.some.injEq]; omega) | (exfalso; omega)
  · intro c hc
    rw [ha, hz] at hc
    rw [rotAssign_cLocale, ha]
    split_ifs <;> first | (simp only [Option.some.injEq]; omega) | (exfalso; omega)
  · intro c hc
    rw [h0, h9] at hc
    rw [rotAssign_cLocale, h0]
    split_ifs <;> first | (simp only [Option.some.injEq]; omega) | (exfalso; omega)

/-- Witness of C11: the string `"Zz9"`, whose three characters wrap around. -/
theorem rot_refines_cyclic_shift_witness :
    NoNul (lit "Zz9") ∧ (lit "Zz9").length ≤ INT_MAX ∧
    rotBuf cLocale (lit "Zz9" ++ 0 :: []) = some ((lit "Zz9").map cyclicShiftSpec ++ 0 :: []) ∧
    rotStr cLocale (lit "Zz9") = some ((lit "Zz9").map cyclicShiftSpec) ∧
    (∀ c, rotChar cLocale c = cyclicShiftSpec c) ∧
    (∀ c, chr 'A' ≤ c ∧ c ≤ chr 'Z' →
      rotAssign cLocale c = some (chr 'A' + (c - chr 'A' + 13) % 26)) ∧
    (∀ c, chr 'a' ≤ c ∧ c ≤ chr 'z' →
      rotAssign cLocale c = some (chr 'a' + (c - chr 'a' + 13) % 26)) ∧
    (∀ c, chr '0' ≤ c ∧ c ≤ chr '9' →
      rotAssign cLocale c = some (chr '0' + (c - chr '0' + 5) % 10)) :=
  ⟨by decide, by decide, rot_refines_cyclic_shift (lit "Zz9") [] (by decide) (by decide)⟩

theorem bijOn_shift (f : Int → Int) (lo hi d : Int)
    (hf : ∀ c, lo ≤ c → c ≤ hi → f c = c + d) :
    Set.BijOn f (Set.Icc lo hi) (Set.Icc (lo + d) (hi + d)) := by
  refine ⟨?_, ?_, ?_⟩
  · intro c hc
    rw [Set.mem_Icc] at hc ⊢
    rw [hf c hc.1 hc.2]
    omega
  · intro a ha b hb hab
    rw [Set.mem_Icc] at ha hb
    rw [hf a ha.1 ha.2, hf b hb.1 hb.2] at hab
    omega
  · intro y hy
    rw [Set.mem_Icc] at hy
    refine ⟨y - d, ?_, ?_⟩
    · rw [Set.mem_Icc]; omega
    · rw [hf (y - d) (by omega) (by omega)]; omega

/-- C12. Half-swap structure: the per-character map of `rot` is a bijection
from `'A'..'M'` onto `'N'..'Z'` and from `'N'..'Z'` onto `'A'..'M'`, likewise
between `'a'..'m'` and `'n'..'z'` and between `'0'..'4'` and `'5'..'9'`; the
six ranges are pairwise disjoint; an uppercase letter maps to an uppercase
letter, a lowercase letter to a lowercase letter and a digit to a digit. -/
theorem rot_half_swap :
    Set.BijOn (rotChar cLocale) (Set.Icc (chr 'A') (chr 'M')) (Set.Icc (chr 'N') (chr 'Z')) ∧
    Set.BijOn (rotChar cLocale) (Set.Icc (chr 'N') (chr 'Z')) (Set.Icc (chr 'A') (chr 'M')) ∧
    Set.BijOn (rotChar cLocale) (Set.Icc (chr 'a') (chr 'm')) (Set.Icc (chr 'n') (chr 'z')) ∧
    Set.BijOn (rotChar cLocale) (Set.Icc (chr 'n') (chr 'z')) (Set.Icc (chr 'a') (chr 'm')) ∧
    Set.BijOn (rotChar cLocale) (Set.Icc (chr '0') (chr '4')) (Set.Icc (chr '5') (chr '9')) ∧
    Set.BijOn (rotChar cLocale) (Set.Icc (chr '5') (chr '9')) (Set.Icc (chr '0') (chr '4')) ∧
    List.Pairwise Disjoint
      [Set.Icc (chr 'A') (chr 'M'), Set.Icc (chr 'N') (chr 'Z'),
       Set.Icc (chr 'a') (chr 'm'), Set.Icc (chr 'n') (chr 'z'),
       Set.Icc (chr '0') (chr '4'), Set.Icc (chr '5') (chr '9')] ∧
    (∀ c, chr 'A' ≤ c ∧ c ≤ chr 'Z' →
      chr 'A' ≤ rotChar cLocale c ∧ rotChar cLocale c ≤ chr 'Z') ∧
    (∀ c, chr 'a' ≤ c ∧ c ≤ chr 'z' →
      chr 'a' ≤ rotChar cLocale c ∧ rotChar cLocale c ≤ chr 'z') ∧
    (∀ c, chr '0' ≤ c ∧ c ≤ chr '9' →
      chr '0' ≤ rotChar cLocale c ∧ rotChar cLocale c ≤ chr '9') := by
  obtain ⟨hA, hM, hN, hZ, ha, hm, hn, hz, h0, h4, h5, h9⟩ := chr_vals
  rw [hA, hM, hN, hZ, ha, hm, hn, hz, h0, h4, h5, h9]
  refine ⟨?_, ?_, ?_, ?_, ?_, ?_, ?_, ?_, ?_, ?_⟩
  · exact bijOn_shift (rotChar cLocale) 65 77 13 (fun c h1 h2 => by rw [rotChar_cLocale]; split_ifs <;> omega)
  · exact bijOn_shift (rotChar cLocale) 78 90 (-13) (fun c h1 h2 => by rw [rotChar_cLocale]; split_ifs <;> omega)
  · exact bijOn_shift (rotChar cLocale) 97 109 13 (fun c h1 h2 => by rw [rotChar_cLocale]; split_ifs <;> omega)
  · exact bijOn_shift (rotChar cLocale) 110 122 (-13) (fun c h1 h2 => by rw [rotChar_cLocale]; split_ifs <;> omega)
  · exact bijOn_shift (rotChar cLocale) 48 52 5 (fun c h1 h2 => by rw [rotChar_cLocale]; split_ifs <;> omega)
  · exact bijOn_shift (rotChar cLocale) 53 57 (-5) (fun c h1 h2 => by rw [rotChar_cLocale]; split_ifs <;> omega)
  · simp only [List.pairwise_cons, List.mem_cons, List.mem_singleton, List.not_mem_nil,
      forall_eq_or_imp, forall_eq, Set.disjoint_left, Set.mem_Icc, List.Pairwise.nil,
      IsEmpty.forall_iff, implies_true, and_true]
    refine ⟨⟨?_, ?_, ?_, ?_, ?_⟩, ⟨?_, ?_, ?_, ?_⟩, ⟨?_, ?_, ?_⟩, ⟨?_, ?_⟩, ?_⟩ <;>
      intro c <;> omega
  · intro c hc; rw [rotChar_cLocale]; split_ifs <;> omega
  · intro c hc; rw [rotChar_cLocale]; split_ifs <;> omega
  · intro c hc; rw [rotChar_cLocale]; split_ifs <;> omega

theorem rotChar_eq_self_iff (c : Int) :
    rotChar cLocale c = c ↔
      ¬ ((chr 'A' ≤ c ∧ c ≤ chr 'Z') ∨ (chr 'a' ≤ c ∧ c ≤ chr 'z') ∨
         (chr '0' ≤ c ∧ c ≤ chr '9')) := by
  obtain ⟨hA, -, -, hZ, ha, -, -, hz, h0, -, -, h9⟩ := chr_vals
  rw [hA, hZ, ha, hz, h0, h9, rotChar_cLocale]
  split_ifs <;> constructor <;> intro h <;> omega

theorem map_eq_self_iff (f : Int → Int) (s : List Int) :
    s.map f = s ↔ ∀ c ∈ s, f c = c := by
  induction s with
  | nil => simp
  | cons a s ih => simp [ih]

/-- C14 (amended). No alphanumeric fixed points: on a buffer holding the
string `s`, free of NUL bytes and of at most `INT_MAX` characters, the
character at a position of `s` is different after the call exactly when it is
an ASCII letter or an ASCII digit; the buffer, and the string read back, equal
the original exactly when `s` contains no ASCII letter and no ASCII digit. -/
theorem rot_moves_exactly_alnum (s rest : List Int) (hs : NoNul s)
    (hl : s.length ≤ INT_MAX) :
    ∃ out, rotBuf cLocale (s ++ 0 :: rest) = some out ∧
      (∀ (i : Nat) (c : Int), s[i]? = some c →
        (out[i]? ≠ some c ↔
          ((chr 'A' ≤ c ∧ c ≤ chr 'Z') ∨ (chr 'a' ≤ c ∧ c ≤ chr 'z') ∨
           (chr '0' ≤ c ∧ c ≤ chr '9')))) ∧
      (out = s ++ 0 :: rest ↔
        ∀ c ∈ s, ¬ ((chr 'A' ≤ c ∧ c ≤ chr 'Z') ∨ (chr 'a' ≤ c ∧ c ≤ chr 'z') ∨
                    (chr '0' ≤ c ∧ c ≤ chr '9'))) ∧
      (rotStr cLocale s = some s ↔
        ∀ c ∈ s, ¬ ((chr 'A' ≤ c ∧ c ≤ chr 'Z') ∨ (chr 'a' ≤ c ∧ c ≤ chr 'z') ∨
                    (chr '0' ≤ c ∧ c ≤ chr '9'))) := by
  have hfix : s.map (rotChar cLocale) = s ↔
      ∀ c ∈ s, ¬ ((chr 'A' ≤ c ∧ c ≤ chr 'Z') ∨ (chr 'a' ≤ c ∧ c ≤ chr 'z') ∨
                  (chr '0' ≤ c ∧ c ≤ chr '9')) := by
    rw [map_eq_self_iff]
    exact forall₂_congr (fun c _ => rotChar_eq_self_iff c)
  refine ⟨_, rotBuf_spec cLocale s rest hs hl, ?_, ?_, ?_⟩
  · intro i c hc
    have hi : i < s.length := by
      by_contra hn
      rw [List.getElem?_eq_none (Nat.le_of_not_lt hn)] at hc
      exact Option.noConfusion hc
    have hbuf : (s ++ 0 :: rest)[i]? = some c := by
      rw [List.getElem?_append_left hi]; exact hc
    rw [getElem?_map_append (rotChar cLocale) s (0 :: rest) i c hbuf, if_pos hi, ne_eq,
      Option.some.injEq, rotChar_eq_self_iff, not_not]
  · rw [List.append_left_inj]; exact hfix
  · rw [rotStr_spec s hs hl, Option.some.injEq]; exact hfix

/-- Witness of C14: the string `"a-1"`. -/
theorem rot_moves_exactly_alnum_witness :
    NoNul (lit "a-1") ∧ (lit "a-1").length ≤ INT_MAX ∧
    ∃ out, rotBuf cLocale (lit "a-1" ++ 0 :: []) = some out ∧
      (∀ (i : Nat) (c : Int), (lit "a-1")[i]? = some c →
        (out[i]? ≠ some c ↔
          ((chr 'A' ≤ c ∧ c ≤ chr 'Z') ∨ (chr 'a' ≤ c ∧ c ≤ chr 'z') ∨
           (chr '0' ≤ c ∧ c ≤ chr '9')))) ∧
      (out = lit "a-1" ++ 0 :: [] ↔
        ∀ c ∈ lit "a-1", ¬ ((chr 'A' ≤ c ∧ c ≤ chr 'Z') ∨ (chr 'a' ≤ c ∧ c ≤ chr 'z') ∨
                    (chr '0' ≤ c ∧ c ≤ chr '9'))) ∧
      (rotStr cLocale (lit "a-1") = some (lit "a-1") ↔
        ∀ c ∈ lit "a-1", ¬ ((chr 'A' ≤ c ∧ c ≤ chr 'Z') ∨ (chr 'a' ≤ c ∧ c ≤ chr 'z') ∨
                    (chr '0' ≤ c ∧ c ≤ chr '9'))) :=
  ⟨by decide, by decide, rot_moves_exactly_alnum (lit "a-1") [] (by decide) (by decide)⟩

/-- Counterexample to C14 as stated (every sequence, every position): in the
sequence NUL, `'a'` position `1` holds the letter `'a'`, and after the call it
still holds `'a'`; the whole buffer is unchanged although the sequence
contains a letter.  And on the string of `INT_MAX + 1` letters `'a'` the call
does not return. -/
theorem rot_moves_exactly_alnum_counterexample :
    ([0, chr 'a'] : List Int)[1]? = some (chr 'a') ∧
    (chr 'a' ≤ chr 'a' ∧ chr 'a' ≤ chr 'z') ∧
    rotBuf cLocale ([0, chr 'a'] ++ [0]) = some ([0, chr 'a'] ++ [0]) ∧
    ([0, chr 'a'] ++ [0] : List Int)[1]? = some (chr 'a') ∧
    rotBuf cLocale (longString ++ [0]) = none :=
  ⟨by decide, by decide, by decide, by decide, rotBuf_longString cLocale []⟩

theorem take_length_append (a b : List Int) : (a ++ b).take a.length = a := by
  simp

theorem drop_length_append (a b : List Int) : (a ++ b).drop a.length = b := by
  simp

/-- C15 (amended). NUL-terminated frame: on every buffer whose first NUL is at
an index of at most `INT_MAX` (`s` may contain further NULs), the call maps
the bytes before the first NUL and leaves the first NUL and every byte behind
it as they were, letters and digits included; so `"ab\0cd"` becomes
`"no\0cd"`. -/
theorem rot_nul_frame (s rest : List Int) (hl : strlen (s ++ 0 :: rest) ≤ INT_MAX) :
    ∃ out, rotBuf cLocale (s ++ 0 :: rest) = some out ∧
      (s ++ 0 :: rest)[strlen (s ++ 0 :: rest)]? = some 0 ∧
      out.take (strlen (s ++ 0 :: rest)) = (cstr (s ++ 0 :: rest)).map (rotChar cLocale) ∧
      out.drop (strlen (s ++ 0 :: rest)) = (s ++ 0 :: rest).drop (strlen (s ++ 0 :: rest)) ∧
      (∀ (i : Nat) (c : Int), (s ++ 0 :: rest)[i]? = some c →
        out[i]? = some (if i < strlen (s ++ 0 :: rest) then rotChar cLocale c else c)) ∧
      rotBuf cLocale (lit "ab" ++ 0 :: (lit "cd" ++ [0]))
        = some (lit "no" ++ 0 :: (lit "cd" ++ [0])) := by
  obtain ⟨p, rest2, hp, -, he⟩ := split_at_nul s rest
  have hlen : strlen (p ++ 0 :: rest2) = p.length := strlen_append_nul p rest2 hp
  rw [he, hlen] at hl
  rw [he, hlen, cstr_append_nul p rest2 hp]
  refine ⟨_, rotBuf_spec cLocale p rest2 hp hl, getElem?_mid p 0 rest2, ?_, ?_, ?_, by decide⟩
  · have h := take_length_append (p.map (rotChar cLocale)) (0 :: rest2)
    rwa [List.length_map] at h
  · have h := drop_length_append (p.map (rotChar cLocale)) (0 :: rest2)
    rw [List.length_map] at h
    rw [h, drop_length_append]
  · intro i c hc
    exact getElem?_map_append (rotChar cLocale) p (0 :: rest2) i c hc

/-- Witness of C15: the sized sequence `"ab\0cd"` followed by a terminator. -/
theorem rot_nul_frame_witness :
    strlen ((lit "ab" ++ 0 :: lit "cd") ++ 0 :: []) ≤ INT_MAX ∧
    ∃ out, rotBuf cLocale ((lit "ab" ++ 0 :: lit "cd") ++ 0 :: []) = some out ∧
      ((lit "ab" ++ 0 :: lit "cd") ++ 0 :: [])[strlen ((lit "ab" ++ 0 :: lit "cd") ++ 0 :: [])]?
        = some 0 ∧
      out.take (strlen ((lit "ab" ++ 0 :: lit "cd") ++ 0 :: []))
        = (cstr ((lit "ab" ++ 0 :: lit "cd") ++ 0 :: [])).map (rotChar cLocale) ∧
      out.drop (strlen ((lit "ab" ++ 0 :: lit "cd") ++ 0 :: []))
        = ((lit "ab" ++ 0 :: lit "cd") ++ 0 :: []).drop
            (strlen ((lit "ab" ++ 0 :: lit "cd") ++ 0 :: [])) ∧
      (∀ (i : Nat) (c : Int), ((lit "ab" ++ 0 :: lit "cd") ++ 0 :: [])[i]? = some c →
        out[i]? = some (if i < strlen ((lit "ab" ++ 0 :: lit "cd") ++ 0 :: [])
          then rotChar cLocale c else c)) ∧
      rotBuf cLocale (lit "ab" ++ 0 :: (lit "cd" ++ [0]))
        = some (lit "no" ++ 0 :: (lit "cd" ++ [0])) :=
  ⟨by decide, rot_nul_frame (lit "ab" ++ 0 :: lit "cd") [] (by decide)⟩

/-- Counterexample to C15 as stated (every buffer): on the buffer made of
`INT_MAX + 1` letters `'a'`, a NUL, `"cd"` and a NUL, the first NUL is at
index `INT_MAX + 1`; the index overflows before it is reached and the call
leaves no buffer, so the bytes before the NUL are not transformed into a
returned result and nothing is said about the bytes behind it. -/
theorem rot_nul_frame_counterexample :
    strlen (longString ++ 0 :: (lit "cd" ++ [0])) = INT_MAX + 1 ∧
    rot cLocale (longString ++ 0 :: (lit "cd" ++ [0])) = .intOverflow ∧
    rotBuf cLocale (longString ++ 0 :: (lit "cd" ++ [0])) = none := by
  refine ⟨?_, rot_longString cLocale _, rotBuf_longString cLocale _⟩
  rw [strlen_append_nul longString _ longString_noNul, longString_length]

/-- Outside the six ranges no branch of the cascade assigns, whatever the
classification functions answer. -/
theorem rotAssign_eq_none (K : Ctype) (c : Int)
    (h : ¬ ((chr 'A' ≤ c ∧ c ≤ chr 'M') ∨ (chr 'N' ≤ c ∧ c ≤ chr 'Z') ∨
            (chr 'a' ≤ c ∧ c ≤ chr 'm') ∨ (chr 'n' ≤ c ∧ c ≤ chr 'z') ∨
            (chr '0' ≤ c ∧ c ≤ chr '4') ∨ (chr '5' ≤ c ∧ c ≤ chr '9'))) :
    rotAssign K c = none := by
  obtain ⟨hA, hM, hN, hZ, ha, hm, hn, hz, h0, h4, h5, h9⟩ := chr_vals
  rw [hA, hM, hN, hZ, ha, hm, hn, hz, h0, h4, h5, h9] at h
  simp only [rotAssign, hA, hM, hN, hZ, ha, hm, hn, hz, h0, h4, h5, h9, ge_iff_le]
  split_ifs <;> first | rfl | (exfalso; omega)

theorem rotAssign_congr (K : Ctype)
    (hK : ∀ c, ((chr 'A' ≤ c ∧ c ≤ chr 'Z') ∨ (chr 'a' ≤ c ∧ c ≤ chr 'z') ∨
                (chr '0' ≤ c ∧ c ≤ chr '9')) →
      K.isalpha c = cLocale.isalpha c ∧ K.isupper c = cLocale.isupper c ∧
      K.islower c = cLocale.islower c ∧ K.isdigit c = cLocale.isdigit c) (c : Int) :
    rotAssign K c = rotAssign cLocale c := by
  by_cases h : (chr 'A' ≤ c ∧ c ≤ chr 'Z') ∨ (chr 'a' ≤ c ∧ c ≤ chr 'z') ∨
      (chr '0' ≤ c ∧ c ≤ chr '9')
  · obtain ⟨h1, h2, h3, h4⟩ := hK c h
    simp only [rotAssign, h1, h2, h3, h4]
  · have hout : ¬ ((chr 'A' ≤ c ∧ c ≤ chr 'M') ∨ (chr 'N' ≤ c ∧ c ≤ chr 'Z') ∨
            (chr 'a' ≤ c ∧ c ≤ chr 'm') ∨ (chr 'n' ≤ c ∧ c ≤ chr 'z') ∨
            (chr '0' ≤ c ∧ c ≤ chr '4') ∨ (chr '5' ≤ c ∧ c ≤ chr '9')) := by
      obtain ⟨hA, hM, hN, hZ, ha, hm, hn, hz, h0, h4, h5, h9⟩ := chr_vals
      rw [hA, hZ, ha, hz, h0, h9] at h
      rw [hA, hM, hN, hZ, ha, hm, hn, hz, h0, h4, h5, h9]
      omega
    rw [rotAssign_eq_none K c hout, rotAssign_eq_none cLocale c hout]

theorem body_congr (K K2 : Ctype) (h : ∀ c, rotAssign K c = rotAssign K2 c) (st : State) :
    body K st = body K2 st := by
  simp only [body, cascade, h]

theorem rotLoop_congr (K K2 : Ctype) (h : ∀ c, rotAssign K c = rotAssign K2 c) :
    ∀ (fuel : Nat) (st : State), rotLoop K fuel st = rotLoop K2 fuel st := by
  intro fuel
  induction fuel with
  | zero => intro st; rfl
  | succ fuel ih =>
    intro st
    simp only [rotLoop, body_congr K K2 h, ih]

/-- C16. Robustness to character classification: whatever the four
classification functions answer, outside the six ranges no branch assigns and
the character passes through (first conjunct, for every `K2`); and when they
answer correctly on the ASCII letters and digits, `rot` changes a character
only inside the six ranges and behaves on every character and every buffer as
it does in the "C" locale. -/
theorem rot_classification_robust (K : Ctype)
    (hK : ∀ c, ((chr 'A' ≤ c ∧ c ≤ chr 'Z') ∨ (chr 'a' ≤ c ∧ c ≤ chr 'z') ∨
                (chr '0' ≤ c ∧ c ≤ chr '9')) →
      K.isalpha c = cLocale.isalpha c ∧ K.isupper c = cLocale.isupper c ∧
      K.islower c = cLocale.islower c ∧ K.isdigit c = cLocale.isdigit c) :
    (∀ (K2 : Ctype) (c : Int),
      ¬ ((chr 'A' ≤ c ∧ c ≤ chr 'M') ∨ (chr 'N' ≤ c ∧ c ≤ chr 'Z') ∨
         (chr 'a' ≤ c ∧ c ≤ chr 'm') ∨ (chr 'n' ≤ c ∧ c ≤ chr 'z') ∨
         (chr '0' ≤ c ∧ c ≤ chr '4') ∨ (chr '5' ≤ c ∧ c ≤ chr '9')) →
      rotAssign K2 c = none ∧ rotChar K2 c = c) ∧
    (∀ c, rotChar K c ≠ c →
      (chr 'A' ≤ c ∧ c ≤ chr 'M') ∨ (chr 'N' ≤ c ∧ c ≤ chr 'Z') ∨
      (chr 'a' ≤ c ∧ c ≤ chr 'm') ∨ (chr 'n' ≤ c ∧ c ≤ chr 'z') ∨
      (chr '0' ≤ c ∧ c ≤ chr '4') ∨ (chr '5' ≤ c ∧ c ≤ chr '9')) ∧
    (∀ c, rotAssign K c = rotAssign cLocale c) ∧
    (∀ c, rotChar K c = rotChar cLocale c) ∧
    (∀ buf, rot K buf = rot cLocale buf) := by
  have hnone : ∀ (K2 : Ctype) (c : Int),
      ¬ ((chr 'A' ≤ c ∧ c ≤ chr 'M') ∨ (chr 'N' ≤ c ∧ c ≤ chr 'Z') ∨
         (chr 'a' ≤ c ∧ c ≤ chr 'm') ∨ (chr 'n' ≤ c ∧ c ≤ chr 'z') ∨
         (chr '0' ≤ c ∧ c ≤ chr '4') ∨ (chr '5' ≤ c ∧ c ≤ chr '9')) →
      rotAssign K2 c = none ∧ rotChar K2 c = c := by
    intro K2 c h
    have h1 := rotAssign_eq_none K2 c h
    exact ⟨h1, by rw [rotChar, h1]; rfl⟩
  refine ⟨hnone, ?_, rotAssign_congr K hK, ?_, ?_⟩
  · intro c hc
    by_contra hout
    exact hc (hnone K c hout).2
  · intro c
    rw [rotChar, rotChar, rotAssign_congr K hK]
  · intro buf
    exact rotLoop_congr K cLocale (rotAssign_congr K hK) _ _

theorem wideLocale_agrees (c : Int)
    (h : (chr 'A' ≤ c ∧ c ≤ chr 'Z') ∨ (chr 'a' ≤ c ∧ c ≤ chr 'z') ∨
         (chr '0' ≤ c ∧ c ≤ chr '9')) :
    wideLocale.isalpha c = cLocale.isalpha c ∧ wideLocale.isupper c = cLocale.isupper c ∧
    wideLocale.islower c = cLocale.islower c ∧ wideLocale.isdigit c = cLocale.isdigit c := by
  have hal : (cLocale.isalpha c || cLocale.isdigit c) = true := by
    simp only [cLocale, Bool.or_eq_true, decide_eq_true_eq]
    tauto
  simp only [wideLocale, hal, Bool.not_true, Bool.or_false, and_self]

/-- Witness of C16: `wideLocale`, which calls the byte `233` a lowercase
letter and `'!'` a digit. -/
theorem rot_classification_robust_witness :
    (∀ c, ((chr 'A' ≤ c ∧ c ≤ chr 'Z') ∨ (chr 'a' ≤ c ∧ c ≤ chr 'z') ∨
                (chr '0' ≤ c ∧ c ≤ chr '9')) →
      wideLocale.isalpha c = cLocale.isalpha c ∧ wideLocale.isupper c = cLocale.isupper c ∧
      wideLocale.islower c = cLocale.islower c ∧ wideLocale.isdigit c = cLocale.isdigit c) ∧
    (wideLocale.isalpha 233 = true ∧ wideLocale.islower 233 = true ∧
      wideLocale.isdigit (chr '!') = true) ∧
    (∀ (K2 : Ctype) (c : Int),
      ¬ ((chr 'A' ≤ c ∧ c ≤ chr 'M') ∨ (chr 'N' ≤ c ∧ c ≤ chr 'Z') ∨
         (chr 'a' ≤ c ∧ c ≤ chr 'm') ∨ (chr 'n' ≤ c ∧ c ≤ chr 'z') ∨
         (chr '0' ≤ c ∧ c ≤ chr '4') ∨ (chr '5' ≤ c ∧ c ≤ chr '9')) →
      rotAssign K2 c = none ∧ rotChar K2 c = c) ∧
    (∀ c, rotChar wideLocale c ≠ c →
      (chr 'A' ≤ c ∧ c ≤ chr 'M') ∨ (chr 'N' ≤ c ∧ c ≤ chr 'Z') ∨
      (chr 'a' ≤ c ∧ c ≤ chr 'm') ∨ (chr 'n' ≤ c ∧ c ≤ chr 'z') ∨
      (chr '0' ≤ c ∧ c ≤ chr '4') ∨ (chr '5' ≤ c ∧ c ≤ chr '9')) ∧
    (∀ c, rotAssign wideLocale c = rotAssign cLocale c) ∧
    (∀ c, rotChar wideLocale c = rotChar cLocale c) ∧
    (∀ buf, rot wideLocale buf = rot cLocale buf) :=
  ⟨wideLocale_agrees, by decide, rot_classification_robust wideLocale wideLocale_agrees⟩

theorem rotAssign_eq_map_rotExpr (K : Ctype) (c : Int) :
    rotAssign K c = (rotExpr K c).map toChar := by
  simp only [rotAssign, rotExpr]
  split_ifs <;> rfl

/-- C17. No arithmetic overflow: whatever the classification functions answer,
every value `v` an addition or subtraction of `rot` yields lies between
`'0' = 48` and `'z' = 122`, hence in `0..127`; storing it into a signed 8-bit
`char` (or an unsigned one) does not change it, so the assigned value is the
exact integer result.  The bounds are met: `'m' + 13 = 'z'` and
`'5' - 5 = '0'`. -/
theorem rot_no_overflow (K : Ctype) (c v : Int) (hv : rotExpr K c = some v) :
    chr '0' ≤ v ∧ v ≤ chr 'z' ∧ 0 ≤ v ∧ v ≤ 127 ∧
    toChar v = v ∧ v % 256 = v ∧ rotAssign K c = some v ∧
    (∀ d, rotAssign K d = (rotExpr K d).map toChar) ∧
    rotExpr cLocale (chr 'm') = some (chr 'z') ∧ chr 'z' = 122 ∧
    rotExpr cLocale (chr '5') = some (chr '0') ∧ chr '0' = 48 := by
  have hrange : 48 ≤ v ∧ v ≤ 122 := by
    obtain ⟨hA, hM, hN, hZ, ha, hm, hn, hz, h0, h4, h5, h9⟩ := chr_vals
    simp only [rotExpr, hA, hM, hN, hZ, ha, hm, hn, hz, h0, h4, h5, h9, ge_iff_le,
      OFFSET_ROT13, OFFSET_ROT5] at hv
    split_ifs at hv <;> first | (exact Option.noConfusion hv) | (simp only [Option.some.injEq] at hv; omega)
  have hchar : toChar v = v := by
    rw [toChar]; omega
  obtain ⟨-, -, -, -, -, -, -, hz, h0, -, -, -⟩ := chr_vals
  refine ⟨by rw [h0]; exact hrange.1, by rw [hz]; exact hrange.2, by omega, by omega, hchar,
    by omega, ?_, rotAssign_eq_map_rotExpr K, by decide, hz, by decide, h0⟩
  rw [rotAssign_eq_map_rotExpr, hv]
  show some (toChar v) = some v
  rw [hchar]

/-- Witness of C17: the character `'m'`, whose sum `'m' + 13` is `122`. -/
theorem rot_no_overflow_witness :
    rotExpr cLocale (chr 'm') = some 122 ∧
    chr '0' ≤ 122 ∧ 122 ≤ chr 'z' ∧ (0 : Int) ≤ 122 ∧ (122 : Int) ≤ 127 ∧
    toChar 122 = 122 ∧ (122 : Int) % 256 = 122 ∧ rotAssign cLocale (chr 'm') = some 122 ∧
    (∀ d, rotAssign cLocale d = (rotExpr cLocale d).map toChar) ∧
    rotExpr cLocale (chr 'm') = some (chr 'z') ∧ chr 'z' = 122 ∧
    rotExpr cLocale (chr '5') = some (chr '0') ∧ chr '0' = 48 :=
  ⟨by decide, rot_no_overflow cLocale (chr 'm') 122 (by decide)⟩

end Rot18
